import Mathlib

/-!
Verification of `mathics/builtin/randomnumbers.py` (random number builtins of
the Mathics symbolic evaluator) against its natural-language specification.

The development shallowly embeds the module: pure helper functions
(`get_random_state`, `set_random_state`, `_from_numpy`) become Lean
functions over lists of bytes and a small model of Mathics expressions;
the stateful parts (the `RandomEnv` session, the global `$RandomState`
slot, the numpy global generator) become explicit state passing over an
`EvalState` record; Python exceptions become `Except PyErr`.

External collaborators (numpy, pickle, the evaluator core) are modelled
from their documented interfaces; each such model carries a doc comment
saying what it stands for.
-/

/-- Python-level exceptions that the embedded code can raise.  `valueError`
stands for `ValueError` (and the `OverflowError` older numpy versions raise
in the same places), `typeError` for `TypeError`, `indexError` for
`IndexError`. -/
inductive PyErr where
  | valueError
  | typeError
  | indexError
deriving DecidableEq, Repr

instance {e a : Type} [DecidableEq e] [DecidableEq a] : DecidableEq (Except e a)
  | .ok x, .ok y =>
      if h : x = y then .isTrue (congrArg _ h)
      else .isFalse (fun c => h (by injection c))
  | .ok _, .error _ => .isFalse (fun c => Except.noConfusion c)
  | .error _, .ok _ => .isFalse (fun c => Except.noConfusion c)
  | .error x, .error y =>
      if h : x = y then .isTrue (congrArg _ h)
      else .isFalse (fun c => h (by injection c))

/-- Fuel-driven base-`b` digit expansion (little-endian), structurally
recursive so the kernel can evaluate it; with fuel `≥ n` it agrees with
`Nat.digits b n` (`digitsB_eq_digits`). -/
def digitsGo (b : Nat) : Nat → Nat → List Nat
  | 0, _ => []
  | fuel + 1, n => if n = 0 then [] else n % b :: digitsGo b fuel (n / b)

/-- The minimal little-endian base-`b` digit list of `n` (executable
counterpart of `Nat.digits b n` for `2 ≤ b`). -/
def digitsB (b n : Nat) : List Nat := digitsGo b n n

theorem digitsGo_eq_digits (b : Nat) (hb : 2 ≤ b) :
    ∀ fuel n, n ≤ fuel → digitsGo b fuel n = Nat.digits b n := by
  intro fuel
  induction fuel with
  | zero =>
      intro n hn
      have : n = 0 := Nat.le_zero.mp hn
      subst this
      simp [digitsGo]
  | succ f ih =>
      intro n hn
      by_cases h : n = 0
      · subst h; simp [digitsGo]
      · have hpos : 0 < n := Nat.pos_of_ne_zero h
        rw [digitsGo, if_neg h, Nat.digits_def' hb hpos,
          ih (n / b) (Nat.le_of_lt_succ (Nat.lt_of_lt_of_le (Nat.div_lt_self hpos hb) hn))]

theorem digitsB_eq_digits (b n : Nat) (hb : 2 ≤ b) :
    digitsB b n = Nat.digits b n :=
  digitsGo_eq_digits b hb n n le_rfl

/-! ## The state codec: `get_random_state` / `set_random_state`

`get_random_state` pickles the numpy generator state, hex-encodes the bytes
with `binascii.b2a_hex` and reads the hex string as an integer with
`int(state, 16)`.  `set_random_state` formats the integer back with
`hex(state)[2:]`, strips a trailing `'L'` (a Python 2 artefact, a no-op on
the minimal lower-case hex string produced on Python 3), decodes the hex
string with `binascii.a2b_hex` (which raises on an odd-length string) and
unpickles.  We model the byte level of this codec exactly. -/

/-- Little-endian hex digits of a little-endian byte list: each byte `b`
contributes `b % 16` (low nibble) then `b / 16` (high nibble).  This is the
digit sequence of the hex string `binascii.b2a_hex` produces, read from
its right end. -/
def bytesToHexLE : List Nat → List Nat
  | [] => []
  | b :: rest => b % 16 :: b / 16 :: bytesToHexLE rest

/-- `int(binascii.b2a_hex(bs), 16)`: the byte string `bs` (big-endian, as
written) read as a base-16 number, i.e. the value of its hex digit list. -/
def encodeBytes (bs : List Nat) : Nat :=
  Nat.ofDigits 16 (bytesToHexLE bs.reverse)

/-- Inverse of `bytesToHexLE`: pair up little-endian hex digits into
little-endian bytes; an odd number of digits is the `binascii.Error`
(`Odd-length string`) that `a2b_hex` raises. -/
def unhexLE : List Nat → Option (List Nat)
  | [] => some []
  | [_] => none
  | lo :: hi :: rest => (unhexLE rest).map (fun bs => (hi * 16 + lo) :: bs)

/-- `binascii.a2b_hex(hex(n)[2:])`: the minimal hex representation of `n`
(`"0"` for `0`, hence a single digit) decoded back to a big-endian byte
string; `none` models the `binascii.Error` raised on odd length. -/
def decodeBytes (n : Nat) : Option (List Nat) :=
  (unhexLE (if n = 0 then [0] else digitsB 16 n)).map List.reverse

/-- A byte string that a reachable generator state can pickle to: nonempty
(`headD` makes `16 ≤ _` fail on `[]`), every byte below 256, and the first
byte at least `0x10` — every pickle stream starts with an opcode byte
`≥ 0x10` (protocol 0 starts with `'('` = `0x28` or a letter opcode,
protocol 2+ with `0x80`), so encoding never loses a leading zero digit. -/
def ReachableBlob (bs : List Nat) : Prop :=
  16 ≤ bs.headD 0 ∧ ∀ b ∈ bs, b < 256

instance : DecidablePred ReachableBlob := fun bs =>
  inferInstanceAs (Decidable (16 ≤ bs.headD 0 ∧ ∀ b ∈ bs, b < 256))

theorem unhexLE_bytesToHexLE (l : List Nat) (hl : ∀ b ∈ l, b < 256) :
    unhexLE (bytesToHexLE l) = some l := by
  induction l with
  | nil => rfl
  | cons b rest ih =>
      have hb : b < 256 := hl b (List.mem_cons_self b rest)
      have hrest : ∀ x ∈ rest, x < 256 := fun x hx => hl x (List.mem_cons_of_mem _ hx)
      simp only [bytesToHexLE, unhexLE, ih hrest, Option.map_some']
      have hdm : b / 16 * 16 + b % 16 = b := by omega
      rw [hdm]

theorem bytesToHexLE_append (l₁ l₂ : List Nat) :
    bytesToHexLE (l₁ ++ l₂) = bytesToHexLE l₁ ++ bytesToHexLE l₂ := by
  induction l₁ with
  | nil => rfl
  | cons b rest ih => simp [bytesToHexLE, ih]

theorem bytesToHexLE_digits_lt (l : List Nat) (hl : ∀ b ∈ l, b < 256) :
    ∀ d ∈ bytesToHexLE l, d < 16 := by
  induction l with
  | nil => intro d hd; cases hd
  | cons b rest ih =>
      intro d hd
      have hb : b < 256 := hl b (List.mem_cons_self b rest)
      simp only [bytesToHexLE, List.mem_cons] at hd
      rcases hd with h | h | h
      · exact h ▸ Nat.mod_lt b (by norm_num)
      · exact h ▸ Nat.div_lt_of_lt_mul (by omega)
      · exact ih (fun x hx => hl x (List.mem_cons_of_mem _ hx)) d h

theorem bytesToHexLE_ne_nil (b : Nat) (l : List Nat) :
    bytesToHexLE (l ++ [b]) ≠ [] := by
  cases l <;> simp [bytesToHexLE, bytesToHexLE_append]

theorem getLastQ_bytesToHexLE (b : Nat) (l : List Nat) :
    (bytesToHexLE (l ++ [b])).getLast? = some (b / 16) := by
  have h2 : bytesToHexLE (l ++ [b]) = (bytesToHexLE l ++ [b % 16]) ++ [b / 16] := by
    rw [bytesToHexLE_append]
    simp [bytesToHexLE]
  rw [h2, List.getLast?_concat]

/-- Core round-trip of the hex codec: for a byte string with a leading
byte `≥ 0x10` (so its top hex digit is nonzero and `hex` drops nothing),
decoding the encoded integer restores the bytes exactly. -/
theorem decodeBytes_encodeBytes (bs : List Nat) (h : ReachableBlob bs) :
    decodeBytes (encodeBytes bs) = some bs := by
  obtain ⟨hhead, hlt⟩ := h
  obtain ⟨b, rest, rfl⟩ : ∃ b rest, bs = b :: rest := by
    cases bs with
    | nil => simp [List.headD] at hhead
    | cons b rest => exact ⟨b, rest, rfl⟩
  have hrev : (b :: rest).reverse = rest.reverse ++ [b] := by simp
  have hltrev : ∀ x ∈ (b :: rest).reverse, x < 256 := fun x hx =>
    hlt x (List.mem_reverse.mp hx)
  have hb : b < 256 := hlt b (List.mem_cons_self b rest)
  have hbhead : 16 ≤ b := by simpa [List.headD] using hhead
  have hdigits :
      Nat.digits 16 (encodeBytes (b :: rest)) = bytesToHexLE (b :: rest).reverse := by
    refine Nat.digits_ofDigits 16 (by norm_num) _
      (bytesToHexLE_digits_lt _ hltrev) ?_
    intro hne
    have h1 : (bytesToHexLE (b :: rest).reverse).getLast? = some (b / 16) := by
      rw [hrev]; exact getLastQ_bytesToHexLE b rest.reverse
    rw [List.getLast?_eq_getLast _ hne] at h1
    have h3 : (bytesToHexLE (b :: rest).reverse).getLast hne = b / 16 :=
      Option.some.inj h1
    rw [h3]
    intro hzero
    omega
  have hne0 : encodeBytes (b :: rest) ≠ 0 := by
    intro h0
    rw [h0] at hdigits
    rw [hrev] at hdigits
    exact bytesToHexLE_ne_nil b rest.reverse (by rw [← hdigits]; simp)
  rw [decodeBytes, digitsB_eq_digits 16 _ (by norm_num), if_neg hne0, hdigits,
    unhexLE_bytesToHexLE _ hltrev]
  simp

/-! ## Generator, pickle and session model -/

/-- Modelled from the spec (§4.1, §4.2): `pickle.dumps` applied to the
numpy generator state.  The generator state itself is opaque to the module
(spec: "an opaque, implementation-defined blob"), so we represent it by a
natural number `g` and model its pickled form as a protocol marker byte
`0x80` followed by the base-256 digits of `g`.  What matters to the module
is only that pickling is injective with a left inverse (`pickle.loads`)
and that the stream starts with an opcode byte `≥ 0x10`. -/
def pickleState (g : Nat) : List Nat :=
  128 :: digitsB 256 g

/-- Modelled from the spec: `pickle.loads`, the left inverse of
`pickleState`; `none` models the `pickle` exception on a malformed
stream. -/
def unpickleState : List Nat → Option Nat
  | 128 :: ds => some (Nat.ofDigits 256 ds)
  | _ => none

/-- `get_random_state()`: pickle the current generator state and read the
hex encoding of the bytes as one big integer. -/
def get_random_state (g : Nat) : Nat :=
  encodeBytes (pickleState g)

/-- `set_random_state(state)`: `None` re-seeds from ambient entropy
(`numpy.random.seed()`, modelled by the session's `entropy` field);
otherwise format the integer in hex, decode the bytes and unpickle.  The
error case models the `binascii`/`pickle` exceptions on integers never
produced by `get_random_state`. -/
def set_random_state (v : Option Nat) (entropy : Nat) : Except PyErr Nat :=
  match v with
  | none => .ok entropy
  | some n =>
      match (decodeBytes n).bind unpickleState with
      | some g => .ok g
      | none => .error .valueError

theorem pickleState_reachable (g : Nat) : ReachableBlob (pickleState g) := by
  constructor
  · simp [pickleState]
  · intro b hb
    simp only [pickleState, digitsB_eq_digits 256 _ (by norm_num),
      List.mem_cons] at hb
    rcases hb with h | h
    · omega
    · exact Nat.digits_lt_base (by norm_num) h

/-- The codec composed with (the model of) pickling: restoring the encoded
state reinstalls the captured generator state exactly. -/
theorem set_get_random_state (g : Nat) (entropy : Nat) :
    set_random_state (some (get_random_state g)) entropy = .ok g := by
  simp only [set_random_state, get_random_state,
    decodeBytes_encodeBytes _ (pickleState_reachable g)]
  simp only [pickleState]
  rw [digitsB_eq_digits 256 _ (by norm_num)]
  simp [unpickleState, Nat.ofDigits_digits]

/-- The evaluator-visible state the module touches: the persisted
`$RandomState` configuration slot (`evaluation.definitions`,
`get_config_value`/`set_config_value`), the numpy global generator state,
the ambient entropy source `numpy.random.seed()` falls back to, and the
list of `(symbol, tag)` messages emitted via `evaluation.message`. -/
structure EvalState where
  config : Option Nat
  gen : Nat
  entropy : Nat
  msgs : List (String × String)
deriving DecidableEq, Repr

/-- Append one `evaluation.message(symbol, tag, ...)` call.  The evaluator
records the message; the Python call returns `None`. -/
def emitMsg (st : EvalState) (sym tag : String) : EvalState :=
  { st with msgs := st.msgs ++ [(sym, tag)] }

/-- `RandomEnv.__enter__`: read the persisted `$RandomState` value and
install it with `set_random_state` (which may raise on a malformed
value; body and `__exit__` then never run). -/
def enterEnv (st : EvalState) : Except PyErr Unit × EvalState :=
  match set_random_state st.config st.entropy with
  | .ok g => (.ok (), { st with gen := g })
  | .error e => (.error e, st)

/-- `RandomEnv.__exit__`: unconditionally (whatever `exit_type`,
`value`, `traceback` are) read the adapter state back out and persist
`encode(get_state())` into the `$RandomState` slot. -/
def exitEnv (st : EvalState) : EvalState :=
  { st with config := some (get_random_state st.gen) }

/-- `with RandomEnv(evaluation) as rand: body` — Python `with` semantics:
if `__enter__` raises, nothing else runs; otherwise the body runs and
`__exit__` runs on every exit path, whether the body returned or raised. -/
def withRandomEnv {α : Type} (st : EvalState)
    (body : EvalState → Except PyErr α × EvalState) :
    Except PyErr α × EvalState :=
  match enterEnv st with
  | (.ok _, st1) =>
      let r := body st1
      (r.1, exitEnv r.2)
  | (.error e, st1) => (.error e, st1)

/-- A `$RandomState` slot the sessions can install: either absent (first
use) or produced by `get_random_state`, i.e. any value actually reachable
through the module's own persistence. -/
def ConfigOK (st : EvalState) : Prop :=
  st.config = none ∨ ∃ g, st.config = some (get_random_state g)

theorem enterEnv_ok (st : EvalState) (h : ConfigOK st) :
    ∃ g, enterEnv st = (.ok (), { st with gen := g }) := by
  rcases h with h | ⟨g, h⟩
  · exact ⟨st.entropy, by simp [enterEnv, h, set_random_state]⟩
  · exact ⟨g, by simp [enterEnv, h, set_get_random_state]⟩

/-! ## Mathics expressions and numpy arrays -/

/-- Model of the Mathics expression values the module builds and inspects:
`Integer`, `Real` (modelled over `ℚ`), `Complex`, `String`, `Symbol`, and
a compound `Expression(head, *leaves)` (heads used here: `"List"` and
`"Rule"`, the source's `'List'` and `'System`Rule'`). -/
inductive MExpr where
  | int : Int → MExpr
  | real : Rat → MExpr
  | cmplx : Rat → Rat → MExpr
  | str : String → MExpr
  | sym : String → MExpr
  | expr : String → List MExpr → MExpr

mutual
/-- Structural equality test for `MExpr` (the deriving handler does not
support nested inductives on this toolchain). -/
def beqM : MExpr → MExpr → Bool
  | .int a, .int b => a == b
  | .real a, .real b => a == b
  | .cmplx a b, .cmplx c d => a == c && b == d
  | .str a, .str b => a == b
  | .sym a, .sym b => a == b
  | .expr h1 l1, .expr h2 l2 => h1 == h2 && beqMList l1 l2
  | _, _ => false

/-- Pointwise `beqM` on leaf lists. -/
def beqMList : List MExpr → List MExpr → Bool
  | [], [] => true
  | x :: xs, y :: ys => beqM x y && beqMList xs ys
  | _, _ => false
end

mutual
theorem beqM_iff : ∀ (a b : MExpr), beqM a b = true ↔ a = b
  | .int _, .int _ => by simp [beqM]
  | .int _, .real _ => by simp [beqM]
  | .int _, .cmplx _ _ => by simp [beqM]
  | .int _, .str _ => by simp [beqM]
  | .int _, .sym _ => by simp [beqM]
  | .int _, .expr _ _ => by simp [beqM]
  | .real _, .int _ => by simp [beqM]
  | .real _, .real _ => by simp [beqM]
  | .real _, .cmplx _ _ => by simp [beqM]
  | .real _, .str _ => by simp [beqM]
  | .real _, .sym _ => by simp [beqM]
  | .real _, .expr _ _ => by simp [beqM]
  | .cmplx _ _, .int _ => by simp [beqM]
  | .cmplx _ _, .real _ => by simp [beqM]
  | .cmplx _ _, .cmplx _ _ => by simp [beqM]
  | .cmplx _ _, .str _ => by simp [beqM]
  | .cmplx _ _, .sym _ => by simp [beqM]
  | .cmplx _ _, .expr _ _ => by simp [beqM]
  | .str _, .int _ => by simp [beqM]
  | .str _, .real _ => by simp [beqM]
  | .str _, .cmplx _ _ => by simp [beqM]
  | .str _, .str _ => by simp [beqM]
  | .str _, .sym _ => by simp [beqM]
  | .str _, .expr _ _ => by simp [beqM]
  | .sym _, .int _ => by simp [beqM]
  | .sym _, .real _ => by simp [beqM]
  | .sym _, .cmplx _ _ => by simp [beqM]
  | .sym _, .str _ => by simp [beqM]
  | .sym _, .sym _ => by simp [beqM]
  | .sym _, .expr _ _ => by simp [beqM]
  | .expr _ _, .int _ => by simp [beqM]
  | .expr _ _, .real _ => by simp [beqM]
  | .expr _ _, .cmplx _ _ => by simp [beqM]
  | .expr _ _, .str _ => by simp [beqM]
  | .expr _ _, .sym _ => by simp [beqM]
  | .expr h1 l1, .expr h2 l2 => by
      simp [beqM, beqMList_iff l1 l2]

theorem beqMList_iff : ∀ (l1 l2 : List MExpr), beqMList l1 l2 = true ↔ l1 = l2
  | [], [] => by simp [beqMList]
  | [], _ :: _ => by simp [beqMList]
  | _ :: _, [] => by simp [beqMList]
  | x :: xs, y :: ys => by
      simp [beqMList, beqM_iff x y, beqMList_iff xs ys]
end

instance : DecidableEq MExpr := fun a b =>
  decidable_of_iff _ (beqM_iff a b)

/-- The leaves of an expression (atoms have none); iteration over a
Mathics expression and its `.leaves` attribute. -/
def leavesOf : MExpr → List MExpr
  | .expr _ ls => ls
  | _ => []

/-- A numpy ndarray over scalar type `α`, as the nested structure that
indexing along the leading axis exposes: a 0-d array is a scalar, an n-d
array is a sequence of (n-1)-d arrays. -/
inductive NPArr (α : Type) where
  | scalar : α → NPArr α
  | vec : List (NPArr α) → NPArr α

/-- `len(a.shape)` for arrays of positive extent: the nesting depth down
the first component. -/
def npDim {α : Type} : NPArr α → Nat
  | .scalar _ => 0
  | .vec [] => 1
  | .vec (x :: _) => 1 + npDim x

mutual
/-- `_from_numpy(a, new_element, d)`: descend through the leading axes
until the residual array has `d` dimensions left, then build a `List`
expression by applying `new_element` to each element along the leading
axis; each level of descent contributes one level of `List` nesting.
`new_element` itself can raise (e.g. `Complex(*c)` on a non-pair);
iterating a 0-d array is the Python `TypeError` it would raise. -/
def fromNumpy {α : Type} (newElement : NPArr α → Except PyErr MExpr)
    (d : Nat) : NPArr α → Except PyErr MExpr
  | .scalar _ => .error .typeError
  | .vec elems =>
      if npDim (.vec elems) = d then
        (fromNumpyLeaves newElement elems).map (fun ls => MExpr.expr "List" ls)
      else
        (fromNumpyList newElement d elems).map (fun ls => MExpr.expr "List" ls)

/-- The stopping level of `_from_numpy`: `[new_element(x) for x in a]`,
propagating the first exception. -/
def fromNumpyLeaves {α : Type} (newElement : NPArr α → Except PyErr MExpr) :
    List (NPArr α) → Except PyErr (List MExpr)
  | [] => .ok []
  | x :: xs =>
      match newElement x with
      | .error e => .error e
      | .ok m =>
          match fromNumpyLeaves newElement xs with
          | .error e => .error e
          | .ok ms => .ok (m :: ms)

/-- The descending level of `_from_numpy`:
`[_from_numpy(a[k], new_element, d) for k in range(a.shape[0])]`. -/
def fromNumpyList {α : Type} (newElement : NPArr α → Except PyErr MExpr)
    (d : Nat) : List (NPArr α) → Except PyErr (List MExpr)
  | [] => .ok []
  | x :: xs =>
      match fromNumpy newElement d x with
      | .error e => .error e
      | .ok m =>
          match fromNumpyList newElement d xs with
          | .error e => .error e
          | .ok ms => .ok (m :: ms)
end

mutual
/-- `numpy.stack([a, b], axis=-1)` for two same-shaped arrays: pair
corresponding scalars along a new trailing axis.  (Mismatched shapes are a
numpy error and never arise below; the fallback is arbitrary.) -/
def npStack {α : Type} : NPArr α → NPArr α → NPArr α
  | .scalar x, .scalar y => .vec [.scalar x, .scalar y]
  | .vec xs, .vec ys => .vec (npStackList xs ys)
  | a, _ => a

/-- Componentwise `npStack` over the leading axis. -/
def npStackList {α : Type} : List (NPArr α) → List (NPArr α) → List (NPArr α)
  | x :: xs, y :: ys => npStack x y :: npStackList xs ys
  | _, _ => []
end

/-- Split a list into `n` consecutive chunks of `k` elements each (the
leading-axis grouping of a flat buffer into an `n × k…` array). -/
def chunksExact {α : Type} : Nat → Nat → List α → List (List α)
  | 0, _, _ => []
  | n + 1, k, xs => xs.take k :: chunksExact n k (xs.drop k)

/-- Product of a dimension list. -/
def prodL (l : List Nat) : Nat := l.foldr (· * ·) 1

/-- Reassemble a flat buffer (C order) into an ndarray of the given
shape; an empty shape yields the 0-d array holding the first element. -/
def shapeArr {α : Type} [Inhabited α] : List Nat → List α → NPArr α
  | [], xs => .scalar xs.headI
  | d :: rest, xs =>
      .vec ((chunksExact d (prodL rest) xs).map (fun ys => shapeArr rest ys))

/-- Modelled from the spec (§4.1): one raw draw of the underlying uniform
generator — a deterministic function of the state, with a deterministic
state step.  The generator algorithm itself is out of scope ("any
high-quality uniform generator satisfying the operation contract"). -/
def drawRaw (g : Nat) : Nat × Nat := (g, g + 1)

/-- Run a state-threading draw `n` times, collecting the outputs. -/
def iterN {σ α : Type} (f : σ → α × σ) : Nat → σ → List α × σ
  | 0, s => ([], s)
  | n + 1, s =>
      let p := f s
      let q := iterN f n p.2
      (p.1 :: q.1, q.2)

/-! ## numpy operation models

numpy itself is an external collaborator (spec §1: the module "assumes an
underlying uniform pseudorandom generator, reusable in black-box form").
The models below follow numpy's documented legacy `RandomState` contracts;
where the contract matters to a claim (seed range, negative dimensions,
sampling without replacement) the doc comment cites it. -/

/-- `numpy.random.random_integers(a, b, size)`: inclusive range.  numpy
raises `ValueError` when any requested dimension is negative ("negative
dimensions are not allowed") and when `b < a`; otherwise it returns an
array of shape `size` (`None` → a scalar) of values in `[a, b]`. -/
def npRandint (a b : Int) (size : Option (List Int)) (g : Nat) :
    Except PyErr (NPArr Int) × Nat :=
  match size with
  | none =>
      if b < a then (.error .valueError, g)
      else
        let p := drawRaw g
        (.ok (.scalar (a + Int.ofNat (p.1 % (b - a + 1).toNat))), p.2)
  | some ds =>
      if ds.any (fun d => d < 0) then (.error .valueError, g)
      else if b < a then (.error .valueError, g)
      else
        let sh := ds.map Int.toNat
        let p := iterN drawRaw (prodL sh) g
        (.ok (shapeArr sh (p.1.map (fun r => a + Int.ofNat (r % (b - a + 1).toNat)))),
         p.2)

/-- One uniform real draw in `[a, b]` from a raw draw (resolution is a
model artefact; only shape and determinism matter to the claims). -/
def uniVal (a b : Rat) (r : Nat) : Rat :=
  a + (b - a) * ((r % 16 : Nat) : Rat) / 16

/-- `numpy.random.uniform(a, b, size)` with a (validated) dimension
list: an array of shape `size` of reals in the range. -/
def npUniformArr (a b : Rat) (sh : List Nat) (g : Nat) : NPArr Rat × Nat :=
  let p := iterN drawRaw (prodL sh) g
  (shapeArr sh (p.1.map (fun r => uniVal a b r)), p.2)

/-- `numpy.random.uniform(a, b)` without a size: one scalar. -/
def npUniform1 (a b : Rat) (g : Nat) : Rat × Nat :=
  let p := drawRaw g
  (uniVal a b p.1, p.2)

/-- The distinct indices `numpy.random.choice(n, size, replace=False)`
draws: `total` distinct members of `range n` (modelled as a rotation of
`range n`; the exact shuffling is black-box, the duplicate-freeness is
numpy's documented contract for `replace=False`). -/
def sampleIndices (n total g : Nat) : List Nat :=
  (((List.range n).rotate (g % n)).take total)

/-- `numpy.random.choice(n, size=size, replace=replace, p=p)`.  Contracts
modelled: `n` must be positive, else `ValueError` ("a must be greater than
0"); `p` must have length `n`, be non-negative and sum to 1, else
`ValueError`; with `replace=False` the total requested count must not
exceed `n`, else `ValueError` ("Cannot take a larger sample than
population when 'replace=False'"), and the drawn indices contain no
duplicates.  Returns an index array of shape `size`. -/
def npChoice (n : Nat) (size : List Int) (replace : Bool)
    (p : Option (List Rat)) (g : Nat) : Except PyErr (NPArr Nat) × Nat :=
  if size.any (fun d => d < 0) then (.error .valueError, g)
  else if n = 0 then (.error .valueError, g)
  else
    match p with
    | some ws =>
        if ws.length ≠ n ∨ ws.any (fun w => w < 0) ∨ ws.foldr (· + ·) 0 ≠ 1 then
          (.error .valueError, g)
        else
          let sh := size.map Int.toNat
          let total := prodL sh
          if ¬replace ∧ n < total then (.error .valueError, g)
          else if replace then
            let q := iterN drawRaw total g
            (.ok (shapeArr sh (q.1.map (fun r => r % n))), q.2)
          else (.ok (shapeArr sh (sampleIndices n total g)), g + total)
    | none =>
        let sh := size.map Int.toNat
        let total := prodL sh
        if ¬replace ∧ n < total then (.error .valueError, g)
        else if replace then
          let q := iterN drawRaw total g
          (.ok (shapeArr sh (q.1.map (fun r => r % n))), q.2)
        else (.ok (shapeArr sh (sampleIndices n total g)), g + total)

/-- `numpy.random.seed(x)` for an integer argument, per the documented
legacy contract: the seed "must be between 0 and 2**32 - 1"; values
outside that range raise (`ValueError` on current versions,
`OverflowError` on the oldest ones).  In range, the new generator state is
a deterministic function of the seed. -/
def numpySeedInt (v : Int) : Except PyErr Nat :=
  if 0 ≤ v ∧ v < 4294967296 then .ok v.toNat else .error .valueError

/-! ## MD5 (`hashlib.md5`)

`SeedRandom` hashes a string seed with
`int(hashlib.md5(s.encode('utf8')).hexdigest(), 16)` — "OS/version
independent hash", per the source comment.  MD5 is implemented here in
full (RFC 1321) over byte lists, with 32-bit words as naturals reduced
mod `2^32`. -/

/-- The 64 MD5 sine-derived round constants `K[i] = floor(|sin(i+1)|*2^32)`. -/
def md5K : List Nat :=
  [3614090360, 3905402710, 606105819, 3250441966,
   4118548399, 1200080426, 2821735955, 4249261313,
   1770035416, 2336552879, 4294925233, 2304563134,
   1804603682, 4254626195, 2792965006, 1236535329,
   4129170786, 3225465664, 643717713, 3921069994,
   3593408605, 38016083, 3634488961, 3889429448,
   568446438, 3275163606, 4107603335, 1163531501,
   2850285829, 4243563512, 1735328473, 2368359562,
   4294588738, 2272392833, 1839030562, 4259657740,
   2763975236, 1272893353, 4139469664, 3200236656,
   681279174, 3936430074, 3572445317, 76029189,
   3654602809, 3873151461, 530742520, 3299628645,
   4096336452, 1126891415, 2878612391, 4237533241,
   1700485571, 2399980690, 4293915773, 2240044497,
   1873313359, 4264355552, 2734768916, 1309151649,
   4149444226, 3174756917, 718787259, 3951481745]

/-- The MD5 per-round left-rotation amounts. -/
def md5S : List Nat :=
  [7, 12, 17, 22, 7, 12, 17, 22, 7, 12, 17, 22, 7, 12, 17, 22, 5, 9, 14, 20, 5, 9, 14, 20, 5, 9, 14, 20, 5, 9, 14, 20, 4, 11, 16, 23, 4, 11, 16, 23, 4, 11, 16, 23, 4, 11, 16, 23, 6, 10, 15, 21, 6, 10, 15, 21, 6, 10, 15, 21, 6, 10, 15, 21]

/-- 32-bit left rotation. -/
def rotl32 (x s : Nat) : Nat :=
  ((x <<< s) ||| (x >>> (32 - s))) % 4294967296

/-- The MD5 round functions F, G, H, I selected by round index. -/
def md5F (i b c d : Nat) : Nat :=
  if i < 16 then (b &&& c) ||| ((4294967295 ^^^ b) &&& d)
  else if i < 32 then (d &&& b) ||| ((4294967295 ^^^ d) &&& c)
  else if i < 48 then b ^^^ c ^^^ d
  else c ^^^ (b ||| (4294967295 ^^^ d))

/-- The MD5 message-word index schedule. -/
def md5G (i : Nat) : Nat :=
  if i < 16 then i
  else if i < 32 then (5 * i + 1) % 16
  else if i < 48 then (3 * i + 5) % 16
  else (7 * i) % 16

/-- One MD5 round on the `(A, B, C, D)` state. -/
def md5Step (m : List Nat) (st : Nat × Nat × Nat × Nat) (i : Nat) :
    Nat × Nat × Nat × Nat :=
  match st with
  | (a, b, c, d) =>
      let f := (md5F i b c d + a + md5K.getD i 0 + m.getD (md5G i) 0) % 4294967296
      (d, (b + rotl32 f (md5S.getD i 0)) % 4294967296, b, c)

/-- Group bytes into little-endian 32-bit words. -/
def word32LE : List Nat → List Nat
  | b0 :: b1 :: b2 :: b3 :: rest =>
      (b0 + 256 * b1 + 65536 * b2 + 16777216 * b3) :: word32LE rest
  | _ => []

/-- Little-endian 4-byte encoding of a 32-bit word. -/
def le4 (x : Nat) : List Nat :=
  [x % 256, x / 256 % 256, x / 65536 % 256, x / 16777216 % 256]

/-- Little-endian 8-byte encoding of the bit length. -/
def le8 (x : Nat) : List Nat :=
  le4 (x % 4294967296) ++ le4 (x / 4294967296)

/-- MD5 padding: `0x80`, zeros to 56 mod 64, then the 64-bit bit length. -/
def md5Pad (msg : List Nat) : List Nat :=
  let len := msg.length
  let k := (56 + 64 - (len + 1) % 64) % 64
  msg ++ [128] ++ List.replicate k 0 ++ le8 (8 * len)

/-- Process one 64-byte chunk: 64 rounds, then add into the state. -/
def md5Chunk (st : Nat × Nat × Nat × Nat) (m : List Nat) :
    Nat × Nat × Nat × Nat :=
  match st, (List.range 64).foldl (md5Step m) st with
  | (a0, b0, c0, d0), (a, b, c, d) =>
      ((a0 + a) % 4294967296, (b0 + b) % 4294967296,
       (c0 + c) % 4294967296, (d0 + d) % 4294967296)

/-- Process the padded message 64 bytes at a time (fuel-driven so the
kernel can evaluate it; the fuel is always sufficient). -/
def md5ChunksGo : Nat → Nat × Nat × Nat × Nat → List Nat → Nat × Nat × Nat × Nat
  | 0, st, _ => st
  | _, st, [] => st
  | fuel + 1, st, bytes =>
      md5ChunksGo fuel (md5Chunk st (word32LE (bytes.take 64))) (bytes.drop 64)

/-- The 16-byte MD5 digest of a byte string. -/
def md5Digest (msg : List Nat) : List Nat :=
  let padded := md5Pad msg
  match md5ChunksGo padded.length (1732584193, 4023233417, 2562383102, 271733878) padded with
  | (a, b, c, d) => le4 a ++ le4 b ++ le4 c ++ le4 d

/-- UTF-8 bytes of a string; on the ASCII strings used here this is the
codepoint list, matching `s.encode('utf8')`. -/
def strBytes (s : String) : List Nat :=
  s.data.map Char.toNat

/-- `int(hashlib.md5(s.encode('utf8')).hexdigest(), 16)`: the digest hex
string read as a (big-endian) integer, which is `encodeBytes` of the
digest bytes. -/
def md5StringInt (s : String) : Nat :=
  encodeBytes (md5Digest (strBytes s))

/-! ## Argument helpers and the builtin `apply` methods -/

/-- `leaf.is_numeric()`: true for the numeric atoms the module passes in
(`Integer`, `Real`, `Complex`); symbols, strings and compound expressions
used as dimensions or weights are not numeric. -/
def isNumericM : MExpr → Bool
  | .int _ => true
  | .real _ => true
  | .cmplx _ _ => true
  | _ => false

/-- `leaf.to_python()` when an `int` is required: only an `Integer` leaf
converts to a Python `int`. -/
def intOfM : MExpr → Option Int
  | .int v => some v
  | _ => none

/-- `leaf.to_python()` when an `(int, float)` is required: `Integer` and
`Real` leaves qualify. -/
def ratOfM : MExpr → Option Rat
  | .int v => some (v : Rat)
  | .real q => some q
  | _ => none

/-- `isinstance(x, (Real, Integer))` plus `x.to_python()`. -/
def ratOfRealInt : MExpr → Option Rat
  | .int v => some (v : Rat)
  | .real q => some q
  | _ => none

/-- Map a partial conversion over a list, failing if any element fails
(the effect of a Python comprehension plus `isinstance` checks). -/
def mapOptList {a b : Type} (f : a → Option b) : List a → Option (List b)
  | [] => some []
  | x :: xs =>
      match f x, mapOptList f xs with
      | some y, some ys => some (y :: ys)
      | _, _ => none

/-- `_RandomBase._size_to_python(domain, size, evaluation)`: all elements
numeric, else the `'array'` message and `(None, None)`; then
`size.to_python()` with every element an `int ≥ 0`, else the same message;
on success `(False, py_size)`. -/
def sizeToPython (name : String) (size : MExpr) (st : EvalState) :
    Option (List Int) × EvalState :=
  let ls := leavesOf size
  if ¬ (ls.all isNumericM) then (none, emitMsg st name "array")
  else
    match mapOptList intOfM ls with
    | some ns =>
        if ns.all (fun n => 0 ≤ n) then (some ns, st)
        else (none, emitMsg st name "array")
    | none => (none, emitMsg st name "array")

/-- The first component of `_weights_to_python`'s returned pair: the
result of `evaluation.message(...)` (Python `None`) on the error path, the
literal `False` on the success path. -/
inductive PyFst where
  | noneV
  | falseV
deriving DecidableEq, Repr

/-- `_RandomSelection._weights_to_python(weights, expr, evaluation)`:
all elements numeric, else the `'weights'` message and `(None, None)`;
then every `w.to_python()` an `(int, float) ≥ 0`, else the same; on
success `(False, py_weights)`. -/
def weightsToPython (name : String) (w : MExpr) (st : EvalState) :
    (PyFst × Option (List Rat)) × EvalState :=
  let ls := leavesOf w
  if ¬ (ls.all isNumericM) then ((.noneV, none), emitMsg st name "weights")
  else
    match mapOptList ratOfM ls with
    | some ws =>
        if ws.all (fun x => 0 ≤ x) then ((.falseV, some ws), st)
        else ((.noneV, none), emitMsg st name "weights")
    | none => ((.noneV, none), emitMsg st name "weights")

/-- The Python objects that can appear when `numpy.sum` is applied to the
pair returned by `_weights_to_python`: `None`, a `bool`, a number, or a
list of numbers. -/
inductive PyObj where
  | noneO
  | boolO (b : Bool)
  | ratO (q : Rat)
  | listO (l : List Rat)

/-- Python `+` on those objects: numbers (and bools, as 0/1) add, lists
concatenate, and any mix involving `None`, or a number/bool with a list,
raises `TypeError` ("unsupported operand type(s) for +"). -/
def pyAdd : PyObj → PyObj → Except PyErr PyObj
  | .ratO a, .ratO b => .ok (.ratO (a + b))
  | .boolO a, .ratO b => .ok (.ratO ((if a then 1 else 0) + b))
  | .ratO a, .boolO b => .ok (.ratO (a + (if b then 1 else 0)))
  | .boolO a, .boolO b => .ok (.ratO ((if a then 1 else 0) + (if b then 1 else 0)))
  | .listO a, .listO b => .ok (.listO (a ++ b))
  | _, _ => .error .typeError

/-- `numpy.add.reduce` over a dtype=object array: left fold of Python `+`
starting from the first element. -/
def npObjectReduce (acc : PyObj) : List PyObj → Except PyErr PyObj
  | [] => .ok acc
  | y :: ys =>
      match pyAdd acc y with
      | .error e => .error e
      | .ok z => npObjectReduce z ys

/-- `numpy.sum` over a ragged 2-tuple: numpy builds a dtype=object array
of the two components and folds Python `+` over it. -/
def npObjectSum : List PyObj → Except PyErr PyObj
  | [] => .ok (.ratO 0)
  | x :: xs => npObjectReduce x xs

/-- The first tuple component, as the object `numpy.sum` sees. -/
def pyFstObj : PyFst → PyObj
  | .noneV => .noneO
  | .falseV => .boolO false

/-- The second tuple component, as the object `numpy.sum` sees. -/
def pySndObj : Option (List Rat) → PyObj
  | none => .noneO
  | some ws => .listO ws

/-- `Integer(x)` for the scalar elements `_from_numpy` stops at. -/
def intLeaf : NPArr Int → Except PyErr MExpr
  | .scalar v => .ok (.int v)
  | _ => .error .typeError

/-- `Real(x)` for the scalar elements `_from_numpy` stops at. -/
def realLeaf : NPArr Rat → Except PyErr MExpr
  | .scalar v => .ok (.real v)
  | _ => .error .typeError

/-- `lambda c: Complex(*c)`: unpacking anything other than a pair of
scalars raises `TypeError`. -/
def cmplxLeaf : NPArr Rat → Except PyErr MExpr
  | .vec [.scalar a, .scalar b] => .ok (.cmplx a b)
  | _ => .error .typeError

/-- `lambda i: elements[i]` on a drawn index. -/
def choiceLeaf (elems : List MExpr) : NPArr Nat → Except PyErr MExpr
  | .scalar i =>
      if h : i < elems.length then .ok (elems.get ⟨i, h⟩)
      else .error .indexError
  | _ => .error .typeError

/-- The rewrite rule `'%(name)s[spec_]': '%(name)s[spec, {1}]'` every
`_RandomBase` subclass installs: a one-argument call is normalized to the
same call with size `{1}`. -/
def RandomBase_rule1 (name : String) (e : MExpr) : Option MExpr :=
  match e with
  | .expr h [spec] =>
      if h = name then some (.expr name [spec, .expr "List" [.int 1]])
      else none
  | _ => none

/-- `RandomInteger.apply` (`RandomInteger[{rmin_, rmax_}]`): both bounds
must be `Integer`, else the `'unifr'` message; otherwise one scalar draw
inside a `RandomEnv` session, wrapped as `Integer`. -/
def RandomInteger_apply (rmin rmax : MExpr) (st : EvalState) :
    Except PyErr (Option MExpr) × EvalState :=
  match rmin, rmax with
  | .int a, .int b =>
      withRandomEnv st (fun s1 =>
        let q := npRandint a b none s1.gen
        match q.1 with
        | .error e => (.error e, { s1 with gen := q.2 })
        | .ok (.scalar v) => (.ok (some (.int v)), { s1 with gen := q.2 })
        | .ok (.vec _) => (.error .typeError, { s1 with gen := q.2 }))
  | _, _ => (.ok none, emitMsg st "RandomInteger" "unifr")

/-- `RandomInteger.apply_list` (`RandomInteger[{rmin_, rmax_}, ns_?ListQ]`):
both bounds must be `Integer`, else `'unifr'`; then — with **no** shape
validation — `ns.to_python()` is handed directly to
`rand.randint(rmin, rmax, result)` inside the session, and the result is
routed through `_from_numpy(..., Integer)`.  Non-integral dimensions are
numpy's `TypeError`, negative ones its `ValueError`. -/
def RandomInteger_apply_list (rmin rmax ns : MExpr) (st : EvalState) :
    Except PyErr (Option MExpr) × EvalState :=
  match rmin, rmax with
  | .int a, .int b =>
      withRandomEnv st (fun s1 =>
        match mapOptList intOfM (leavesOf ns) with
        | none => (.error .typeError, s1)
        | some ds =>
            let q := npRandint a b (some ds) s1.gen
            match q.1 with
            | .error e => (.error e, { s1 with gen := q.2 })
            | .ok arr =>
                match fromNumpy intLeaf 1 arr with
                | .error e => (.error e, { s1 with gen := q.2 })
                | .ok ex => (.ok (some ex), { s1 with gen := q.2 }))
  | _, _ => (.ok none, emitMsg st "RandomInteger" "unifr")

/-- `RandomReal.apply` (`RandomReal[{xmin_, xmax_}]`): both bounds `Real`
or `Integer`, else `'unifr'`; one scalar uniform draw in a session. -/
def RandomReal_apply (xmin xmax : MExpr) (st : EvalState) :
    Except PyErr (Option MExpr) × EvalState :=
  match ratOfRealInt xmin, ratOfRealInt xmax with
  | some a, some b =>
      withRandomEnv st (fun s1 =>
        let q := npUniform1 a b s1.gen
        (.ok (some (.real q.1)), { s1 with gen := q.2 }))
  | _, _ => (.ok none, emitMsg st "RandomReal" "unifr")

/-- `RandomReal.apply_list` (`RandomReal[{xmin_, xmax_}, ns_?ListQ]`):
bounds checked as in `apply`; then `ns.to_python()` must be all
`int ≥ 0`, else the `'array'` message **before** any session is opened;
then draw with that shape and build leaves with `Real`. -/
def RandomReal_apply_list (xmin xmax ns : MExpr) (st : EvalState) :
    Except PyErr (Option MExpr) × EvalState :=
  match ratOfRealInt xmin, ratOfRealInt xmax with
  | some a, some b =>
      match mapOptList intOfM (leavesOf ns) with
      | some ds =>
          if ds.all (fun d => 0 ≤ d) then
            withRandomEnv st (fun s1 =>
              let q := npUniformArr a b (ds.map Int.toNat) s1.gen
              match fromNumpy realLeaf 1 q.1 with
              | .error e => (.error e, { s1 with gen := q.2 })
              | .ok ex => (.ok (some ex), { s1 with gen := q.2 }))
          else (.ok none, emitMsg st "RandomReal" "array")
      | none => (.ok none, emitMsg st "RandomReal" "array")
  | _, _ => (.ok none, emitMsg st "RandomReal" "unifr")

/-- `RealNumberQ[z]` promotion in `RandomComplex`: a real number given as
a corner becomes `Complex(z, 0.0)`. -/
def promoteComplex : MExpr → MExpr
  | .int v => .cmplx (v : Rat) 0
  | .real q => .cmplx q 0
  | e => e

/-- `isinstance(z, Complex)` plus `z.to_python()`: the `(re, im)` pair. -/
def cmplxOfM : MExpr → Option (Rat × Rat)
  | .cmplx a b => some (a, b)
  | _ => none

/-- The body of `RandomComplex.apply_list`'s session: draw the real-part
array and the imaginary-part array over the same shape, stack them along
a new trailing axis (`numpy.stack([real, imag], axis=-1)`) and hand the
stacked array to `_from_numpy` with the literal depth parameter `d=2`. -/
def complexDrawCore (minRe maxRe minIm maxIm : Rat) (sh : List Nat) (g : Nat) :
    Except PyErr MExpr × Nat :=
  let re := npUniformArr minRe maxRe sh g
  let im := npUniformArr minIm maxIm sh re.2
  (fromNumpy cmplxLeaf 2 (npStack re.1 im.1), im.2)

/-- The same pipeline with the depth parameter the spec prescribes,
`d = len(shape) + 1`, stated in the spec's own words for comparison with
the source's constant `d = 2`. -/
def complexDrawCoreSpecD (minRe maxRe minIm maxIm : Rat) (sh : List Nat) (g : Nat) :
    Except PyErr MExpr × Nat :=
  let re := npUniformArr minRe maxRe sh g
  let im := npUniformArr minIm maxIm sh re.2
  (fromNumpy cmplxLeaf (sh.length + 1) (npStack re.1 im.1), im.2)

/-- `RandomComplex.apply_list` (`RandomComplex[{zmin_, zmax_}, ns_]`):
promote real corners, require `Complex` corners else `'unifr'`;
`ns.to_python()` (wrapped in a singleton list if not a list) must be all
`int ≥ 0`, else `'array'`; then the stacked two-component draw. -/
def RandomComplex_apply_list (zmin zmax ns : MExpr) (st : EvalState) :
    Except PyErr (Option MExpr) × EvalState :=
  match cmplxOfM (promoteComplex zmin), cmplxOfM (promoteComplex zmax) with
  | some p, some q =>
      let nsl := match ns with
        | .expr "List" ls => ls
        | other => [other]
      match mapOptList intOfM nsl with
      | some ds =>
          if ds.all (fun d => 0 ≤ d) then
            withRandomEnv st (fun s1 =>
              let r := complexDrawCore p.1 q.1 p.2 q.2 (ds.map Int.toNat) s1.gen
              match r.1 with
              | .error e => (.error e, { s1 with gen := r.2 })
              | .ok ex => (.ok (some ex), { s1 with gen := r.2 }))
          else (.ok none, emitMsg st "RandomComplex" "array")
      | none => (.ok none, emitMsg st "RandomComplex" "array")
  | _, _ => (.ok none, emitMsg st "RandomComplex" "unifr")

/-- `_RandomSelection.apply` (`%(name)s[domain_, size_]`), shared by
`RandomChoice` (`_replace = True`) and `RandomSample` (`_replace = False`).

For a `Rule` domain (`weights -> elements`) the source assigns the
**pair** returned by `_weights_to_python` to the variable `weights`
without destructuring it, and then executes
`weights /= numpy.sum(weights)`: `numpy.sum` of the ragged 2-tuple folds
Python `+` over a dtype=object array (which raises `TypeError`), and even
if a sum were produced, true division of a tuple would raise as well —
the weighted path can therefore never reach the length check or the draw.

For a `List` domain the size is validated through `_size_to_python`
(message and no draw on failure), then `numpy.random.choice` runs inside
a session and the index array is mapped through `elements[i]`. -/
def RandomSelection_apply (replace : Bool) (name : String)
    (domain size : MExpr) (st : EvalState) :
    Except PyErr (Option MExpr) × EvalState :=
  match domain with
  | .expr dh dls =>
      if dh = "Rule" then
        let wr := weightsToPython name (dls.headD (.sym "Null")) st
        match npObjectSum [pyFstObj wr.1.1, pySndObj wr.1.2] with
        | .error e => (.error e, wr.2)
        | .ok _ => (.error .typeError, wr.2)
      else if dh = "List" then
        match sizeToPython name size st with
        | (some pySize, st1) =>
            withRandomEnv st1 (fun s2 =>
              let q := npChoice dls.length pySize replace none s2.gen
              match q.1 with
              | .error e => (.error e, { s2 with gen := q.2 })
              | .ok arr =>
                  match fromNumpy (choiceLeaf dls) 1 arr with
                  | .error e => (.error e, { s2 with gen := q.2 })
                  | .ok ex => (.ok (some ex), { s2 with gen := q.2 }))
        | (none, st1) => (.ok none, st1)
      else (.ok none, emitMsg st name "list")
  | _ => (.ok none, emitMsg st name "list")

/-- `rand.seed(value)` inside a session, then `return Symbol('Null')`
after the `with` block (so a raising seed never returns `Null`, but the
session's `__exit__` has still persisted the state). -/
def seedWith (v : Int) (st : EvalState) :
    Except PyErr (Option MExpr) × EvalState :=
  let r := withRandomEnv st (fun s1 =>
    match numpySeedInt v with
    | .ok g => (.ok (), { s1 with gen := g })
    | .error e => (.error e, s1))
  match r.1 with
  | .ok _ => (.ok (some (.sym "Null")), r.2)
  | .error e => (.error e, r.2)

/-- `SeedRandom.apply` (`SeedRandom[x_]`): an `Integer` seeds with its
value, a `String` with the MD5 hash integer, anything else gets the
`'seed'` message. -/
def SeedRandom_apply (x : MExpr) (st : EvalState) :
    Except PyErr (Option MExpr) × EvalState :=
  match x with
  | .int v => seedWith v st
  | .str s => seedWith (Int.ofNat (md5StringInt s)) st
  | _ => (.ok none, emitMsg st "SeedRandom" "seed")

/-- `SeedRandom.apply_empty` (`SeedRandom[]`): `rand.seed()` — ambient
entropy — inside a session, then `Null`. -/
def SeedRandom_apply_empty (st : EvalState) :
    Except PyErr (Option MExpr) × EvalState :=
  let r := withRandomEnv st (fun s1 => ((.ok () : Except PyErr Unit), { s1 with gen := s1.entropy }))
  match r.1 with
  | .ok _ => (.ok (some (.sym "Null")), r.2)
  | .error e => (.error e, r.2)

/-- `RandomState.apply` (`$RandomState`): inside a session, return
`Integer(get_random_state())`. -/
def RandomState_apply (st : EvalState) :
    Except PyErr (Option MExpr) × EvalState :=
  withRandomEnv st (fun s1 =>
    (.ok (some (.int (Int.ofNat (get_random_state s1.gen)))), s1))

/-- Modelled from the spec: the assignment interception for the protected
symbol `$RandomState` lives in the evaluator core (`mathics.core`, not
under `src/`); only the `'rndst'` message text ("It is not possible to
change the random state.") and the doctests (`$RandomState = 42` prints
the message and returns `42`) are in this module.  Per the spec, an
assignment attempt emits that fixed message, performs no write to the
persisted slot, and the assignment expression evaluates to its right-hand
value. -/
def RandomState_assign (rhs : MExpr) (st : EvalState) : MExpr × EvalState :=
  (rhs, emitMsg st "$RandomState" "rndst")

/-- A (C-ordered) ndarray has exactly the given shape: a `[]`-shaped
array is one scalar, a `d :: rest` array is `d` subarrays of shape
`rest`. -/
def RegularQ : List Nat → {α : Type} → NPArr α → Bool
  | [], _, .scalar _ => true
  | d :: rest, _, .vec ls => ls.length == d && ls.all (fun x => RegularQ rest x)
  | _, _, _ => false

/-- The result expression is a nested `List` structure matching the given
shape with `Complex` leaves: exactly the spec's "nested list of depth k
whose leaves are complex values". -/
def matchesShape : List Nat → MExpr → Bool
  | [], .cmplx _ _ => true
  | d :: rest, .expr h ls =>
      h == "List" && ls.length == d && ls.all (fun x => matchesShape rest x)
  | _, _ => false

/-! ## Claim theorems -/

/-- C1: for every generator state reachable by seeding and drawing,
decoding the encoded state restores it exactly —
`set_random_state(get_random_state())` reinstalls the captured state, and
at the byte level `decode(encode(s)) = s` for every blob a reachable
state pickles to. -/
theorem c1_codec_roundtrip :
    (∀ g entropy, set_random_state (some (get_random_state g)) entropy = .ok g) ∧
    (∀ bs, ReachableBlob bs → decodeBytes (encodeBytes bs) = some bs) :=
  ⟨set_get_random_state, decodeBytes_encodeBytes⟩

/-- Witness for C1 at a concrete state and a concrete pickle-style blob. -/
theorem c1_codec_roundtrip_witness :
    ReachableBlob [40, 0, 255] ∧
    set_random_state (some (get_random_state 12345)) 0 = .ok 12345 ∧
    decodeBytes (encodeBytes [40, 0, 255]) = some [40, 0, 255] :=
  ⟨by decide, c1_codec_roundtrip.1 12345 0, c1_codec_roundtrip.2 [40, 0, 255] (by decide)⟩

/-- C2: every entered `RandomEnv` session, on every exit path — the body
returning normally or raising — encodes the adapter's current state and
persists it to the `$RandomState` slot, unconditionally overwriting the
prior value. -/
theorem c2_session_exit_persists {α : Type} (st : EvalState)
    (body : EvalState → Except PyErr α × EvalState)
    (h : (enterEnv st).1 = .ok ()) :
    withRandomEnv st body
      = ((body (enterEnv st).2).1, exitEnv (body (enterEnv st).2).2) ∧
    (exitEnv (body (enterEnv st).2).2).config
      = some (get_random_state ((body (enterEnv st).2).2).gen) := by
  refine ⟨?_, rfl⟩
  rcases hE : enterEnv st with ⟨r, st1⟩
  rw [hE] at h
  cases r with
  | ok u =>
      cases u
      simp only [withRandomEnv, hE]
  | error e => exact absurd h (by simp)

/-- Witness for C2 at a concrete state with a body that raises. -/
theorem c2_session_exit_persists_witness :
    (enterEnv ⟨none, 3, 7, []⟩).1 = .ok () ∧
    (withRandomEnv ⟨none, 3, 7, []⟩
        (fun s => ((.error .valueError : Except PyErr (Option MExpr)), s))).2.config
      = some (get_random_state 7) := by
  refine ⟨by decide, ?_⟩
  have h := c2_session_exit_persists (⟨none, 3, 7, []⟩ : EvalState)
    (fun s => ((.error .valueError : Except PyErr (Option MExpr)), s)) (by decide)
  rw [h.1]
  decide

/-- C3 counterexample: `RandomInteger[{1, 5}, {1, -1}]` does **not** fail
with the "invalid array dimensions" message — `RandomInteger.apply_list`
performs no shape validation, so the call raises numpy's `ValueError` for
the negative dimension inside the session and emits no message at all. -/
theorem c3_counterexample :
    (RandomInteger_apply_list (.int 1) (.int 5)
        (.expr "List" [.int 1, .int (-1)]) ⟨none, 0, 7, []⟩).1
      = .error .valueError ∧
    (RandomInteger_apply_list (.int 1) (.int 5)
        (.expr "List" [.int 1, .int (-1)]) ⟨none, 0, 7, []⟩).2.msgs = [] := by
  constructor <;> decide

/-- C3 amended: the sampling operations that do validate the shape
(`RandomReal` and `RandomComplex` inline, `RandomChoice`/`RandomSample`
via `_size_to_python`) reject a non-sequence-of-non-negative-integers
shape with the `'array'` message, return unevaluated (no partial result)
and never touch the generator; `RandomInteger.apply_list` instead passes
the shape unvalidated to the generator, which raises. -/
theorem c3_shape_validation_amended (st : EvalState) (replace : Bool)
    (name : String) :
    RandomReal_apply_list (.int 0) (.int 1)
        (.expr "List" [.int 1, .int (-1)]) st
      = (.ok none, emitMsg st "RandomReal" "array") ∧
    RandomComplex_apply_list (.cmplx 0 0) (.cmplx 1 1)
        (.expr "List" [.int 1, .int (-1)]) st
      = (.ok none, emitMsg st "RandomComplex" "array") ∧
    RandomSelection_apply replace name (.expr "List" [.sym "a"])
        (.expr "List" [.int 1, .int (-1)]) st
      = (.ok none, emitMsg st name "array") ∧
    (RandomInteger_apply_list (.int 1) (.int 5)
        (.expr "List" [.int 1, .int (-1)]) ⟨none, 0, 7, []⟩).1
      = .error .valueError := by
  refine ⟨rfl, rfl, ?_, by decide⟩
  simp [RandomSelection_apply, sizeToPython, leavesOf, isNumericM, intOfM,
    mapOptList]

/-- C4: every weighted (`weights -> elements`) call of `RandomChoice` or
`RandomSample` raises `TypeError` — the pair returned by
`_weights_to_python` is not destructured, so `weights /= numpy.sum(weights)`
operates on the 2-tuple — instead of validating, normalizing, and
drawing.  Shown here on `RandomChoice[{1, 2} -> {a, b}, {2}]` (valid
weights, matching lengths) and `RandomSample` likewise. -/
theorem c4_weighted_call_raises :
    (RandomSelection_apply true "RandomChoice"
        (.expr "Rule" [.expr "List" [.int 1, .int 2],
          .expr "List" [.sym "a", .sym "b"]])
        (.expr "List" [.int 2]) ⟨none, 0, 7, []⟩).1 = .error .typeError ∧
    (RandomSelection_apply false "RandomSample"
        (.expr "Rule" [.expr "List" [.int 1, .int 2],
          .expr "List" [.sym "a", .sym "b"]])
        (.expr "List" [.int 2]) ⟨none, 0, 7, []⟩).1 = .error .typeError := by
  constructor <;> rfl

/-- The indices drawn without replacement never repeat within one draw. -/
theorem sampleIndices_nodup (n total g : Nat) :
    (sampleIndices n total g).Nodup := by
  unfold sampleIndices
  exact ((List.nodup_rotate).mpr (List.nodup_range n)).sublist
    (List.take_sublist _ _)

/-- C5 counterexample: `RandomSample[{a, b}, {3}]` (`k = 3 > n = 2`) does
**not** surface a recoverable evaluator message — it raises the
generator's `ValueError` out of the session, emitting no message. -/
theorem c5_counterexample :
    (RandomSelection_apply false "RandomSample" (.expr "List" [.sym "a", .sym "b"])
        (.expr "List" [.int 3]) ⟨none, 0, 7, []⟩).1 = .error .valueError ∧
    (RandomSelection_apply false "RandomSample" (.expr "List" [.sym "a", .sym "b"])
        (.expr "List" [.int 3]) ⟨none, 0, 7, []⟩).2.msgs = [] := by
  constructor <;> decide

/-- C5 amended: requesting `k > n` elements without replacement raises
the generator's `ValueError` (an exception, not an evaluator message)
and returns no partial result; for `k ≤ n` the drawn index list never
contains duplicates. -/
theorem c5_sample_amended :
    (∀ st, ConfigOK st →
      (RandomSelection_apply false "RandomSample"
          (.expr "List" [.sym "a", .sym "b"])
          (.expr "List" [.int 3]) st).1 = .error .valueError ∧
      (RandomSelection_apply false "RandomSample"
          (.expr "List" [.sym "a", .sym "b"])
          (.expr "List" [.int 3]) st).2.msgs = st.msgs) ∧
    (∀ n k g, n < k →
      (npChoice n [Int.ofNat k] false none g).1 = .error .valueError) ∧
    (∀ n total g, (sampleIndices n total g).Nodup) := by
  refine ⟨?_, ?_, sampleIndices_nodup⟩
  · intro st h
    obtain ⟨g, hE⟩ := enterEnv_ok st h
    have hred : RandomSelection_apply false "RandomSample"
          (.expr "List" [.sym "a", .sym "b"]) (.expr "List" [.int 3]) st
        = (.error .valueError, exitEnv { st with gen := g }) := by
      show withRandomEnv st _ = _
      rw [withRandomEnv, hE]
      rfl
    rw [hred]
    exact ⟨rfl, rfl⟩
  · intro n k g hnk
    by_cases hn : n = 0
    · simp [npChoice, hn]
    · have h1 : ¬ ((k : Int) < 0) := Int.not_lt.mpr (Int.natCast_nonneg k)
      have h2 : n < prodL [k] := by simpa [prodL] using hnk
      simp [npChoice, hn, h1, h2]

/-- Witness for C5 (amended) at concrete inputs. -/
theorem c5_sample_amended_witness :
    ConfigOK ⟨none, 0, 7, []⟩ ∧
    (RandomSelection_apply false "RandomSample"
        (.expr "List" [.sym "a", .sym "b"])
        (.expr "List" [.int 3]) ⟨none, 0, 7, []⟩).1 = .error .valueError ∧
    (npChoice 2 [Int.ofNat 3] false none 5).1 = .error .valueError ∧
    (sampleIndices 3 2 5).Nodup :=
  ⟨Or.inl rfl,
   (c5_sample_amended.1 ⟨none, 0, 7, []⟩ (Or.inl rfl)).1,
   c5_sample_amended.2.1 2 3 5 (by decide),
   c5_sample_amended.2.2 3 2 5⟩

set_option maxRecDepth 40000 in
/-- C6: seeding does **not** succeed for every integer and string —
`SeedRandom[-1]` raises (`numpy.random.seed` rejects negative seeds) and
`SeedRandom["Mathics"]` raises as well, because the 128-bit MD5 hash
value (≥ 2^32) is passed to the generator unreduced; neither call
returns `Null`, contradicting the module's own doctests for string
seeds. -/
theorem c6_seed_raises :
    (SeedRandom_apply (.int (-1)) ⟨none, 0, 7, []⟩).1 = .error .valueError ∧
    (SeedRandom_apply (.str "Mathics") ⟨none, 0, 7, []⟩).1
      = .error .valueError ∧
    4294967296 ≤ md5StringInt "Mathics" ∧
    (SeedRandom_apply (.int 42) ⟨none, 0, 7, []⟩).1
      = .ok (some (.sym "Null")) := by
  refine ⟨by decide, by decide, by decide, by decide⟩

set_option maxRecDepth 40000 in
/-- C7: seeding twice with the string `"Mathics"` does **not** determine
the subsequent draw sequence — the seed call raises and leaves the
generator on its ambient stream, so two runs of
`SeedRandom["Mathics"]; RandomInteger[{0, 100}]` from different ambient
entropy give different draws.  (For integer seeds the generator model is
deterministic, but the string path never installs the seed.) -/
theorem c7_seed_mathics_not_deterministic :
    (SeedRandom_apply (.str "Mathics") ⟨none, 0, 17, []⟩).1
      = .error .valueError ∧
    (RandomInteger_apply (.int 0) (.int 100)
        (SeedRandom_apply (.str "Mathics") ⟨none, 0, 17, []⟩).2).1
      ≠ (RandomInteger_apply (.int 0) (.int 100)
        (SeedRandom_apply (.str "Mathics") ⟨none, 0, 23, []⟩).2).1 := by
  refine ⟨by decide, by decide⟩

/-- Reading `$RandomState` when the slot holds a codec-produced value:
the session installs the decoded state, returns its encoding, and
re-persists the identical value. -/
theorem RandomState_apply_of_config (st : EvalState) (g : Nat)
    (h : st.config = some (get_random_state g)) :
    RandomState_apply st
      = (.ok (some (.int (Int.ofNat (get_random_state g)))),
         { st with gen := g, config := some (get_random_state g) }) := by
  have hE : enterEnv st = (.ok (), { st with gen := g }) := by
    simp [enterEnv, h, set_get_random_state]
  show withRandomEnv st _ = _
  rw [withRandomEnv, hE]
  rfl

/-- C9: an assignment attempt on `$RandomState` is rejected with the
fixed `'rndst'` message, is a no-op on the persisted state integer (the
value read via `RandomState_apply` immediately before and after the
attempt is the same, and the slot itself is unchanged), and the attempted
right-hand value is returned as the value of the assignment. -/
theorem c9_random_state_immutable (st : EvalState) (g : Nat) (rhs : MExpr)
    (h : st.config = some (get_random_state g)) :
    (RandomState_apply st).1
      = .ok (some (.int (Int.ofNat (get_random_state g)))) ∧
    ((RandomState_apply st).2).config = some (get_random_state g) ∧
    (RandomState_assign rhs ((RandomState_apply st).2)).1 = rhs ∧
    ((RandomState_assign rhs ((RandomState_apply st).2)).2).config
      = ((RandomState_apply st).2).config ∧
    ((RandomState_assign rhs ((RandomState_apply st).2)).2).msgs
      = ((RandomState_apply st).2).msgs ++ [("$RandomState", "rndst")] ∧
    (RandomState_apply ((RandomState_assign rhs ((RandomState_apply st).2)).2)).1
      = (RandomState_apply st).1 := by
  rw [RandomState_apply_of_config st g h]
  refine ⟨rfl, rfl, rfl, rfl, rfl, ?_⟩
  rw [RandomState_apply_of_config _ g rfl]

/-- Witness for C9 at a concrete persisted state and right-hand value. -/
theorem c9_random_state_immutable_witness :
    (⟨some (get_random_state 5), 0, 0, []⟩ : EvalState).config
      = some (get_random_state 5) ∧
    (RandomState_assign (.int 42)
        ((RandomState_apply ⟨some (get_random_state 5), 0, 0, []⟩).2)).1
      = .int 42 ∧
    ((RandomState_assign (.int 42)
        ((RandomState_apply ⟨some (get_random_state 5), 0, 0, []⟩).2)).2).config
      = ((RandomState_apply ⟨some (get_random_state 5), 0, 0, []⟩).2).config := by
  have h := c9_random_state_immutable
    ⟨some (get_random_state 5), 0, 0, []⟩ 5 (.int 42) rfl
  exact ⟨rfl, h.2.2.1, h.2.2.2.1⟩

/-- Entering a session with a well-formed slot reduces `withRandomEnv` to
body-then-persist. -/
theorem withRandomEnv_of_enter {α : Type} (st st' : EvalState)
    (body : EvalState → Except PyErr α × EvalState)
    (hE : enterEnv st = (.ok (), st')) :
    withRandomEnv st body = ((body st').1, exitEnv (body st').2) := by
  rw [withRandomEnv, hE]

/-- A size-`{1}` draw from a nonempty population yields a one-element
index vector, for both `replace` modes. -/
theorem npChoice_one (n : Nat) (hn : 0 < n) (replace : Bool) (g : Nat) :
    ∃ j, j < n ∧
      npChoice n [1] replace none g = (.ok (.vec [.scalar j]), g + 1) := by
  have hne : n ≠ 0 := Nat.pos_iff_ne_zero.mp hn
  cases replace with
  | true =>
      refine ⟨g % n, Nat.mod_lt g hn, ?_⟩
      unfold npChoice
      rw [if_neg (by decide), if_neg hne, if_neg (by simp)]
      rfl
  | false =>
      have hlen : ((List.range n).rotate (g % n)).length = n := by
        simp
      obtain ⟨j, t, hjt⟩ : ∃ j t, (List.range n).rotate (g % n) = j :: t := by
        cases hrot : (List.range n).rotate (g % n) with
        | nil => rw [hrot] at hlen; simp at hlen; omega
        | cons j t => exact ⟨j, t, rfl⟩
      have hj : j < n := by
        have hmem : j ∈ (List.range n).rotate (g % n) := by
          rw [hjt]; exact List.mem_cons_self _ _
        rw [List.mem_rotate] at hmem
        exact List.mem_range.mp hmem
      refine ⟨j, hj, ?_⟩
      unfold npChoice
      rw [if_neg (by decide), if_neg hne,
        if_neg (show ¬ (¬ (false = true) ∧ n < prodL ([(1 : Int)].map Int.toNat)) by
          simp [prodL]; omega)]
      simp only [sampleIndices, hjt]
      rfl

/-- C10: a one-argument `RandomChoice[domain]` / `RandomSample[domain]`
is rewritten by the `_RandomBase` rule to size `{1}`, and the resulting
call on a (nonempty, unweighted) list domain returns a `List` expression
with exactly one element — never a bare element. -/
theorem c10_singleton_choice (replace : Bool) (name : String)
    (st : EvalState) (elems : List MExpr) (spec : MExpr)
    (hcfg : ConfigOK st) (hne : elems ≠ []) :
    RandomBase_rule1 name (.expr name [spec])
      = some (.expr name [spec, .expr "List" [.int 1]]) ∧
    ∃ e, (RandomSelection_apply replace name (.expr "List" elems)
        (.expr "List" [.int 1]) st).1 = .ok (some (.expr "List" [e])) := by
  constructor
  · simp [RandomBase_rule1]
  · obtain ⟨g, hE⟩ := enterEnv_ok st hcfg
    have hn : 0 < elems.length := List.length_pos.mpr hne
    obtain ⟨j, hj, hch⟩ := npChoice_one elems.length hn replace g
    refine ⟨elems.get ⟨j, hj⟩, ?_⟩
    show (withRandomEnv st _).1 = _
    rw [withRandomEnv_of_enter st _ _ hE]
    simp only [hch]
    simp only [fromNumpy, fromNumpyLeaves, npDim, choiceLeaf, dif_pos hj]
    rfl

/-- Witness for C10 at a concrete two-element domain. -/
theorem c10_singleton_choice_witness :
    ConfigOK ⟨none, 0, 7, []⟩ ∧
    ([MExpr.sym "a", MExpr.sym "b"] : List MExpr) ≠ [] ∧
    RandomBase_rule1 "RandomChoice"
        (.expr "RandomChoice" [.expr "List" [.sym "a", .sym "b"]])
      = some (.expr "RandomChoice"
          [.expr "List" [.sym "a", .sym "b"], .expr "List" [.int 1]]) ∧
    ∃ e, (RandomSelection_apply true "RandomChoice"
        (.expr "List" [.sym "a", .sym "b"])
        (.expr "List" [.int 1]) ⟨none, 0, 7, []⟩).1
      = .ok (some (.expr "List" [e])) := by
  have h := c10_singleton_choice true "RandomChoice" ⟨none, 0, 7, []⟩
    [MExpr.sym "a", MExpr.sym "b"] (.expr "List" [.sym "a", .sym "b"])
    (Or.inl rfl) (by decide)
  exact ⟨Or.inl rfl, by decide, h.1, h.2⟩

theorem iterN_length {σ α : Type} (f : σ → α × σ) (n : Nat) :
    ∀ s, (iterN f n s).1.length = n := by
  induction n with
  | zero => intro s; rfl
  | succ m ih => intro s; simp [iterN, ih]

theorem chunksExact_length {α : Type} (k d : Nat) :
    ∀ (xs : List α), (chunksExact d k xs).length = d := by
  induction d with
  | zero => intro xs; rfl
  | succ m ih => intro xs; simp [chunksExact, ih]

theorem chunksExact_mem_length {α : Type} (k : Nat) :
    ∀ (d : Nat) (xs : List α), xs.length = d * k →
      ∀ ys ∈ chunksExact d k xs, ys.length = k := by
  intro d
  induction d with
  | zero =>
      intro xs _ ys hys
      cases hys
  | succ m ih =>
      intro xs h ys hys
      have hmk : xs.length = m * k + k := by rw [h]; ring
      simp only [chunksExact, List.mem_cons] at hys
      rcases hys with rfl | hys
      · rw [List.length_take]; omega
      · exact ih (xs.drop k) (by rw [List.length_drop]; omega) ys hys

theorem shapeArr_regular {α : Type} [Inhabited α] :
    ∀ (sh : List Nat) (xs : List α), xs.length = prodL sh →
      RegularQ sh (shapeArr sh xs) = true := by
  intro sh
  induction sh with
  | nil => intro xs _; rfl
  | cons d rest ih =>
      intro xs h
      have hlen : xs.length = d * prodL rest := by simpa [prodL] using h
      simp only [shapeArr, RegularQ, Bool.and_eq_true, beq_iff_eq,
        List.all_eq_true]
      constructor
      · rw [List.length_map, chunksExact_length]
      · intro z hz
        rw [List.mem_map] at hz
        obtain ⟨ys, hys, rfl⟩ := hz
        exact ih ys (chunksExact_mem_length _ _ _ hlen ys hys)

theorem npUniformArr_regular (a b : Rat) (sh : List Nat) (g : Nat) :
    RegularQ sh (npUniformArr a b sh g).1 = true := by
  unfold npUniformArr
  exact shapeArr_regular sh _ (by rw [List.length_map, iterN_length])

theorem regular_scalar {α : Type} (y : NPArr α) (h : RegularQ [] y = true) :
    ∃ c, y = .scalar c := by
  cases y with
  | scalar c => exact ⟨c, rfl⟩
  | vec l => simp [RegularQ] at h

theorem regular_pair {α : Type} (x : NPArr α) (h : RegularQ [2] x = true) :
    ∃ u v, x = .vec [.scalar u, .scalar v] := by
  cases x with
  | scalar c => simp [RegularQ] at h
  | vec l =>
      simp only [RegularQ, Bool.and_eq_true, beq_iff_eq,
        List.all_eq_true] at h
      obtain ⟨hlen, hall⟩ := h
      cases l with
      | nil => simp at hlen
      | cons y1 t =>
          cases t with
          | nil => simp at hlen
          | cons y2 t2 =>
              cases t2 with
              | nil =>
                  obtain ⟨u, rfl⟩ := regular_scalar y1 (hall y1 (by simp))
                  obtain ⟨v, rfl⟩ := regular_scalar y2 (hall y2 (by simp))
                  exact ⟨u, v, rfl⟩
              | cons y3 t3 => simp at hlen

theorem npDim_regular {α : Type} :
    ∀ (sh : List Nat) (a : NPArr α), RegularQ sh a = true →
      (∀ d ∈ sh, 0 < d) → npDim a = sh.length := by
  intro sh
  induction sh with
  | nil =>
      intro a h _
      obtain ⟨c, rfl⟩ := regular_scalar a h
      rfl
  | cons d rest ih =>
      intro a h hpos
      cases a with
      | scalar c => simp [RegularQ] at h
      | vec ls =>
          simp only [RegularQ, Bool.and_eq_true, beq_iff_eq,
            List.all_eq_true] at h
          obtain ⟨hlen, hall⟩ := h
          have hd : 0 < d := hpos d (List.mem_cons_self _ _)
          cases ls with
          | nil => simp at hlen; omega
          | cons x t =>
              have hx := ih x (hall x (List.mem_cons_self _ _))
                (fun e he => hpos e (List.mem_cons_of_mem _ he))
              simp [npDim, hx, Nat.add_comm]

theorem npStackList_spec {α : Type} (rest : List Nat)
    (ihp : ∀ (a b : NPArr α), RegularQ rest a = true →
      RegularQ rest b = true → RegularQ (rest ++ [2]) (npStack a b) = true) :
    ∀ (xs ys : List (NPArr α)), xs.length = ys.length →
      (∀ x ∈ xs, RegularQ rest x = true) →
      (∀ y ∈ ys, RegularQ rest y = true) →
      (npStackList xs ys).length = xs.length ∧
      (∀ z ∈ npStackList xs ys, RegularQ (rest ++ [2]) z = true) := by
  intro xs
  induction xs with
  | nil =>
      intro ys _ _ _
      exact ⟨rfl, by intro z hz; cases hz⟩
  | cons x xt ih =>
      intro ys hlen hxs hys
      cases ys with
      | nil => simp at hlen
      | cons y yt =>
          obtain ⟨ihl, ihm⟩ := ih yt (by simpa using hlen)
            (fun x' hx' => hxs x' (List.mem_cons_of_mem _ hx'))
            (fun y' hy' => hys y' (List.mem_cons_of_mem _ hy'))
          constructor
          · simp [npStackList, ihl]
          · intro z hz
            simp only [npStackList, List.mem_cons] at hz
            rcases hz with rfl | hz
            · exact ihp x y (hxs x (List.mem_cons_self _ _))
                (hys y (List.mem_cons_self _ _))
            · exact ihm z hz

theorem npStack_regular {α : Type} :
    ∀ (sh : List Nat) (a b : NPArr α), RegularQ sh a = true →
      RegularQ sh b = true → RegularQ (sh ++ [2]) (npStack a b) = true := by
  intro sh
  induction sh with
  | nil =>
      intro a b ha hb
      obtain ⟨u, rfl⟩ := regular_scalar a ha
      obtain ⟨v, rfl⟩ := regular_scalar b hb
      rfl
  | cons d rest ih =>
      intro a b ha hb
      cases a with
      | scalar c => simp [RegularQ] at ha
      | vec xs =>
          cases b with
          | scalar c => simp [RegularQ] at hb
          | vec ys =>
              simp only [RegularQ, Bool.and_eq_true, beq_iff_eq,
                List.all_eq_true] at ha hb
              obtain ⟨hxl, hxa⟩ := ha
              obtain ⟨hyl, hya⟩ := hb
              obtain ⟨hl, hm⟩ := npStackList_spec rest ih xs ys (by omega) hxa hya
              show RegularQ (d :: (rest ++ [2])) (.vec (npStackList xs ys)) = true
              simp only [RegularQ, Bool.and_eq_true, beq_iff_eq,
                List.all_eq_true]
              exact ⟨by omega, hm⟩

theorem fromNumpyLeaves_pairs :
    ∀ (xs : List (NPArr Rat)), (∀ x ∈ xs, RegularQ [2] x = true) →
      ∃ ls, fromNumpyLeaves cmplxLeaf xs = .ok ls ∧ ls.length = xs.length ∧
        ∀ e ∈ ls, matchesShape [] e = true := by
  intro xs
  induction xs with
  | nil => exact fun _ => ⟨[], rfl, rfl, by intro e he; cases he⟩
  | cons x xt ih =>
      intro hall
      obtain ⟨u, v, rfl⟩ := regular_pair x (hall x (List.mem_cons_self _ _))
      obtain ⟨ls, hls, hlen, hsh⟩ :=
        ih (fun y hy => hall y (List.mem_cons_of_mem _ hy))
      refine ⟨.cmplx u v :: ls, ?_, by simp [hlen], ?_⟩
      · simp [fromNumpyLeaves, cmplxLeaf, hls]
      · intro e he
        rcases List.mem_cons.mp he with rfl | he
        · rfl
        · exact hsh e he

theorem fromNumpy_stacked :
    ∀ (sh : List Nat), sh ≠ [] → (∀ d ∈ sh, 0 < d) →
      ∀ (a : NPArr Rat), RegularQ (sh ++ [2]) a = true →
        ∃ ex, fromNumpy cmplxLeaf 2 a = .ok ex ∧ matchesShape sh ex = true := by
  intro sh
  induction sh with
  | nil => intro h _ _ _; exact absurd rfl h
  | cons d rest ih =>
      intro _ hpos a ha
      have hd : 0 < d := hpos d (List.mem_cons_self _ _)
      cases a with
      | scalar c => exact absurd ha (by simp [RegularQ])
      | vec ls =>
          rw [show ((d :: rest) ++ [2] : List Nat) = d :: (rest ++ [2]) from rfl] at ha
          simp only [RegularQ, Bool.and_eq_true, beq_iff_eq,
            List.all_eq_true] at ha
          obtain ⟨hlen, hall⟩ := ha
          cases rest with
          | nil =>
              obtain ⟨lse, hlse, hlenl, hshl⟩ := fromNumpyLeaves_pairs ls hall
              have hdim : npDim (.vec ls : NPArr Rat) = 2 := by
                cases ls with
                | nil => exfalso; simp at hlen; omega
                | cons x xt =>
                    obtain ⟨u, v, rfl⟩ := regular_pair x (hall x (List.mem_cons_self _ _))
                    rfl
              refine ⟨.expr "List" lse, ?_, ?_⟩
              · simp [fromNumpy, hdim, hlse, Except.map]
              · simp only [matchesShape, Bool.and_eq_true, beq_iff_eq,
                  List.all_eq_true]
                exact ⟨⟨by simp, by omega⟩, hshl⟩
          | cons r2 rt =>
              have hrestne : (r2 :: rt : List Nat) ≠ [] := by simp
              have hrpos : ∀ e ∈ (r2 :: rt : List Nat), 0 < e :=
                fun e he => hpos e (List.mem_cons_of_mem _ he)
              have inner : ∀ (zs : List (NPArr Rat)),
                  (∀ x ∈ zs, RegularQ ((r2 :: rt) ++ [2]) x = true) →
                  ∃ es, fromNumpyList cmplxLeaf 2 zs = .ok es ∧
                    es.length = zs.length ∧
                    ∀ e ∈ es, matchesShape (r2 :: rt) e = true := by
                intro zs
                induction zs with
                | nil => exact fun _ => ⟨[], rfl, rfl, by intro e he; cases he⟩
                | cons z zt ihz =>
                    intro hz
                    obtain ⟨ex, hex, hshx⟩ :=
                      ih hrestne hrpos z (hz z (List.mem_cons_self _ _))
                    obtain ⟨es, hes, hlz, hshz⟩ :=
                      ihz (fun w hw => hz w (List.mem_cons_of_mem _ hw))
                    refine ⟨ex :: es, ?_, by simp [hlz], ?_⟩
                    · simp [fromNumpyList, hex, hes]
                    · intro e he
                      rcases List.mem_cons.mp he with rfl | he
                      · exact hshx
                      · exact hshz e he
              obtain ⟨es, hes, hlz, hshz⟩ := inner ls hall
              have hdim : npDim (.vec ls : NPArr Rat) ≠ 2 := by
                cases ls with
                | nil => exfalso; simp at hlen; omega
                | cons x xt =>
                    have hx := npDim_regular ((r2 :: rt) ++ [2]) x
                      (hall x (List.mem_cons_self _ _))
                      (by
                        intro e he
                        rcases List.mem_append.mp he with h1 | h1
                        · exact hrpos e h1
                        · simp at h1; omega)
                    rw [show npDim (.vec (x :: xt) : NPArr Rat) = 1 + npDim x from rfl, hx]
                    simp only [List.length_append, List.length_cons, List.length_nil]
                    omega
              refine ⟨.expr "List" es, ?_, ?_⟩
              · simp [fromNumpy, hdim, hes, Except.map]
              · simp only [matchesShape, Bool.and_eq_true, beq_iff_eq,
                  List.all_eq_true]
                exact ⟨⟨by simp, by omega⟩, hshz⟩

/-- C8 counterexample: the source invokes the Shape Builder with the
constant depth parameter `d = 2`, not `d = len(shape) + 1`.  For shape
`{1, 1}` (`len(shape) + 1 = 3`) the two invocations disagree: the
source's `d = 2` produces the depth-2 nested list of complex leaves,
while `d = 3` stops a level early and `Complex(*c)` raises on the 2-d
subarray.  `RandomComplex.apply_list` returns the `d = 2` result. -/
theorem c8_counterexample :
    (complexDrawCoreSpecD 0 1 0 1 [1, 1] 5).1 = .error .typeError ∧
    (∃ ex, (complexDrawCore 0 1 0 1 [1, 1] 5).1 = .ok ex ∧
      matchesShape [1, 1] ex = true ∧
      (RandomComplex_apply_list (.cmplx 0 0) (.cmplx 1 1)
          (.expr "List" [.int 1, .int 1]) ⟨none, 0, 5, []⟩).1 = .ok (some ex)) ∧
    (complexDrawCore 0 1 0 1 [1, 1] 5).1
      ≠ (complexDrawCoreSpecD 0 1 0 1 [1, 1] 5).1 := by
  refine ⟨rfl, ⟨_, rfl, rfl, rfl⟩, ?_⟩
  intro h
  rw [show (complexDrawCoreSpecD 0 1 0 1 [1, 1] 5).1 = .error .typeError
    from rfl] at h
  exact Except.noConfusion (h.symm.trans (show (complexDrawCore 0 1 0 1 [1, 1] 5).1
    = .ok (.expr "List" [.expr "List"
        [.cmplx (uniVal 0 1 5) (uniVal 0 1 6)]]) from rfl).symm)

/-- C8 amended: `RandomComplex` stacks the real-part and imaginary-part
arrays along a new trailing axis and invokes the Shape Builder with the
constant depth parameter `d = 2` (`d` counts the residual array
dimensions at which leaves are built; `d = 1`, the default, for
single-component domains) — which equals `len(shape) + 1` only when
`len(shape) = 1`.  The invocation nonetheless produces, for every
nonempty shape `[n1, ..., nk]` of positive dimensions, a nested list of
depth `k` whose leaves are complex values. -/
theorem c8_shape_depth_amended :
    (∀ (minRe maxRe minIm maxIm : Rat) (sh : List Nat) (g : Nat),
      complexDrawCore minRe maxRe minIm maxIm sh g
        = (fromNumpy cmplxLeaf 2
            (npStack (npUniformArr minRe maxRe sh g).1
              (npUniformArr minIm maxIm sh (npUniformArr minRe maxRe sh g).2).1),
           (npUniformArr minIm maxIm sh (npUniformArr minRe maxRe sh g).2).2)) ∧
    (∀ (sh : List Nat) (minRe maxRe minIm maxIm : Rat) (g : Nat),
      sh ≠ [] → (∀ d ∈ sh, 0 < d) →
      ∃ ex, (complexDrawCore minRe maxRe minIm maxIm sh g).1 = .ok ex ∧
        matchesShape sh ex = true) := by
  refine ⟨fun _ _ _ _ _ _ => rfl, ?_⟩
  intro sh minRe maxRe minIm maxIm g hne hpos
  exact fromNumpy_stacked sh hne hpos _
    (npStack_regular sh _ _ (npUniformArr_regular minRe maxRe sh g)
      (npUniformArr_regular minIm maxIm sh ((npUniformArr minRe maxRe sh g).2)))

/-- Witness for C8 (amended) at the concrete shape `{2}`. -/
theorem c8_shape_depth_amended_witness :
    ([2] : List Nat) ≠ [] ∧ (∀ d ∈ ([2] : List Nat), 0 < d) ∧
    ∃ ex, (complexDrawCore 0 1 0 1 [2] 3).1 = .ok ex ∧
      matchesShape [2] ex = true :=
  ⟨by decide, by decide,
   c8_shape_depth_amended.2 [2] 0 1 0 1 3 (by decide) (by decide)⟩
